import Mathlib

/-!
Verification of the preset persistence subsystem of the kolosal desktop
client (`src/source/win/kolosal.cpp`, `src/include/kolosal.h`) and of the
chat-session message append it parallels (`src/include/ui/chat/chat_section.hpp`).

Modelling conventions:
* `std::string` is embedded as `List Char` (one `Char` per byte).
* The `float` sampling fields of `ModelPreset` are embedded as `Int`: the
  modelled code never performs arithmetic on them, it only copies them and
  compares them for equality, so any type with decidable equality is a
  faithful carrier.
* Wall-clock reads (`std::time(nullptr)`) become an explicit `now : Int`
  argument.
* The presets directory is embedded as an association list from file name
  to the preset record last written to that file.  `std::filesystem::exists`
  is membership of the key, writing with `std::ofstream` replaces or appends
  the entry, `std::filesystem::remove` deletes it.
* `std::sort` with comparator `a.lastModified > b.lastModified` is embedded
  as an insertion sort with the same comparator; the source comparator does
  not pin the order of ties, and no theorem below depends on tie order.
-/

namespace Kolosal

/-- A C++ `std::string`, embedded as the list of its bytes. -/
abbrev Str := List Char

/-- The `ModelPreset` struct of `src/include/kolosal.h` (lines 98-135).
The four `float` fields are carried as `Int` (see the module docstring). -/
structure ModelPreset where
  id : Int
  lastModified : Int
  name : Str
  systemPrompt : Str
  temperature : Int
  top_p : Int
  top_k : Int
  random_seed : Int
  min_length : Int
  max_new_tokens : Int
deriving DecidableEq

/-- The `ModelPreset` default constructor values collapsed onto `Int` fields;
used only as the default of `List.getD`. -/
def defaultMP : ModelPreset :=
  { id := 0, lastModified := 0, name := [], systemPrompt := [],
    temperature := 0, top_p := 0, top_k := 0, random_seed := 0,
    min_length := 0, max_new_tokens := 0 }

/-- The state of the `PresetManager` class of `src/include/kolosal.h`
(lines 237-273): the two parallel collections, the current index, the
initialization flag, and the presets directory contents. -/
structure PresetManager where
  loadedPresets : List ModelPreset
  originalPresets : List ModelPreset
  defaultPreset : ModelPreset
  currentPresetIndex : Int
  hasInitialized : Bool
  files : List (Str × ModelPreset)
deriving DecidableEq

/-- The `.json` extension appended by `getPresetFilePath`. -/
def jsonExt : Str := ['.', 'j', 's', 'o', 'n']

/-- `PresetManager::getPresetFilePath` (kolosal.cpp lines 471-474): the
path of a preset file, relative to the (constant) presets directory. -/
def getPresetFilePath (presetName : Str) : Str := presetName ++ jsonExt

/-- Reads a file from the embedded directory: `none` when the file does
not exist. -/
def lookupFile : List (Str × ModelPreset) → Str → Option ModelPreset
  | [], _ => none
  | e :: es, k => if e.1 = k then some e.2 else lookupFile es k

/-- Writes a file: create-or-truncate semantics of `std::ofstream`. -/
def setFile (files : List (Str × ModelPreset)) (k : Str) (v : ModelPreset) :
    List (Str × ModelPreset) :=
  if k ∈ files.map Prod.fst then
    files.map (fun e => if e.1 = k then (k, v) else e)
  else
    files ++ [(k, v)]

/-- Deletes a file; deleting an absent file changes nothing, matching the
`std::filesystem::exists` guard around `std::filesystem::remove`. -/
def removeFile (files : List (Str × ModelPreset)) (k : Str) :
    List (Str × ModelPreset) :=
  files.filter (fun e => decide (e.1 ≠ k))

/-- The NUL byte. -/
def nulChar : Char := Char.ofNat 0

/-- `strlen(name.data())`: the number of bytes before the first NUL byte
(the terminator supplied by `data()` stops the scan at the full length when
the string has no embedded NUL). -/
def strlenData (s : Str) : Nat := (s.takeWhile (fun c => decide (c ≠ nulChar))).length

/-- The invalid file-system characters of `isValidPresetName`
(kolosal.cpp line 491). -/
def invalidChars : Str := ['<', '>', ':', '"', '/', '\\', '|', '?', '*']

/-- `PresetManager::isValidPresetName` (kolosal.cpp lines 482-499).
Note the emptiness test is `strlen(name.data()) == 0`, not `name.empty()`,
and the length ceiling is `name.length() > 256`. -/
def isValidPresetName (name : Str) : Bool :=
  if strlenData name = 0 ∨ 256 < name.length then false
  else if name.any (fun c => invalidChars.contains c) then false
  else true

/-- One insertion step of the embedded `std::sort` with comparator
`a.lastModified > b.lastModified` (descending). -/
def insertByLM (p : ModelPreset) : List ModelPreset → List ModelPreset
  | [] => [p]
  | q :: qs => if q.lastModified < p.lastModified then p :: q :: qs else q :: insertByLM p qs

/-- The embedded `std::sort(..., [](a, b){ return a.lastModified > b.lastModified; })`
used by `loadPresets` and `savePreset`: sorts by `lastModified` descending. -/
def sortByLM : List ModelPreset → List ModelPreset
  | [] => []
  | p :: ps => insertByLM p (sortByLM ps)

/-- The `std::find_if` + `std::distance` pattern of `deletePreset`, and the
linear scan of the overwrite branch of `savePreset`: index of the first
entry with the given name. -/
def findIndexByName (nm : Str) : List ModelPreset → Option Nat
  | [] => none
  | p :: ps => if p.name = nm then some 0 else (findIndexByName nm ps).map (· + 1)

/-- The id-reassignment loop of `deletePreset` (kolosal.cpp lines 380-385),
starting from a given next id. -/
def renumberFrom (k : Int) : List ModelPreset → List ModelPreset
  | [] => []
  | p :: ps => { p with id := k } :: renumberFrom (k + 1) ps

/-- Reassigns the `id` fields to the contiguous sequence `1..N`. -/
def renumberIds (l : List ModelPreset) : List ModelPreset := renumberFrom 1 l

/-- The field-by-field comparison of `hasUnsavedChanges`
(kolosal.cpp lines 444-451): `id` and `lastModified` are not compared. -/
def presetDiffers (c o : ModelPreset) : Bool :=
  decide (c.name ≠ o.name) || decide (c.systemPrompt ≠ o.systemPrompt) ||
  decide (c.temperature ≠ o.temperature) || decide (c.top_p ≠ o.top_p) ||
  decide (c.top_k ≠ o.top_k) || decide (c.random_seed ≠ o.random_seed) ||
  decide (c.min_length ≠ o.min_length) || decide (c.max_new_tokens ≠ o.max_new_tokens)

/-- `PresetManager::hasUnsavedChanges` (kolosal.cpp lines 433-452).  The
guard compares the `int` index against `size_t` sizes, so a negative index
is converted to a huge unsigned value and the function returns `false`;
the embedding makes that case explicit. -/
def hasUnsavedChanges (st : PresetManager) : Bool :=
  if st.currentPresetIndex < 0 then false
  else
    match st.loadedPresets[st.currentPresetIndex.toNat]?,
          st.originalPresets[st.currentPresetIndex.toNat]? with
    | some c, some o => presetDiffers c o
    | _, _ => false

/-- `PresetManager::resetCurrentPreset` (kolosal.cpp lines 457-463).  The
guard `currentPresetIndex < originalPresets.size()` again converts the
`int` index to `size_t`, so a negative index fails the guard. -/
def resetCurrentPreset (st : PresetManager) : PresetManager :=
  if 0 ≤ st.currentPresetIndex ∧ st.currentPresetIndex < (st.originalPresets.length : Int) then
    let i := st.currentPresetIndex.toNat
    { st with loadedPresets := st.loadedPresets.set i (st.originalPresets.getD i defaultMP) }
  else st

/-- `PresetManager::switchPreset` (kolosal.cpp lines 412-426): bounds-checked
no-op when out of range, otherwise discards unsaved changes of the current
preset before moving the index. -/
def switchPreset (st : PresetManager) (newIndex : Int) : PresetManager :=
  if newIndex < 0 ∨ (st.loadedPresets.length : Int) ≤ newIndex then st
  else
    let st1 := if hasUnsavedChanges st then resetCurrentPreset st else st
    { st1 with currentPresetIndex := newIndex }

/-- `PresetManager::getCurrentPreset` (kolosal.h lines 252-253) indexes
`loadedPresets[currentPresetIndex]` with no bounds check; the total
embedding returns `none` exactly when the access would be out of bounds. -/
def getCurrentPreset (st : PresetManager) : Option ModelPreset :=
  if st.currentPresetIndex < 0 then none
  else st.loadedPresets[st.currentPresetIndex.toNat]?

/-- Little-endian decimal digits, with explicit fuel for structural
recursion; `digitsRev` supplies enough. -/
def digitsRevAux : Nat → Nat → List Nat
  | 0, _ => []
  | fuel + 1, n => if n = 0 then [] else n % 10 :: digitsRevAux fuel (n / 10)

/-- Little-endian decimal digits of a natural number; `0` has no digits,
matching the fact that `std::to_string` is only applied to the positive
counter of `savePreset`. -/
def digitsRev (n : Nat) : List Nat := digitsRevAux n n

/-- One decimal digit as a character. -/
def digitChar (d : Nat) : Char := Char.ofNat (48 + d)

/-- `std::to_string` on a positive integer: its decimal digit characters. -/
def natToChars (n : Nat) : Str := ((digitsRev n).map digitChar).reverse

/-- The candidate name `baseName + "_" + std::to_string(k)` built by the
collision loop of `savePreset` (kolosal.cpp line 265). -/
def suffixedName (base : Str) (k : Nat) : Str := base ++ '_' :: natToChars k

/-- The collision loop of `savePreset` (kolosal.cpp lines 261-266):
`while (exists(getPresetFilePath(name))) name = base + "_" + to_string(counter++);`.
`fuel` bounds the iteration count; `uniquePresetName` supplies enough fuel
for the loop to terminate at the first free candidate. -/
def uniquePresetNameLoop (fileNames : List Str) (base cur : Str) :
    Nat → Nat → Str
  | _, 0 => cur
  | counter, fuel + 1 =>
    if getPresetFilePath cur ∈ fileNames then
      uniquePresetNameLoop fileNames base (suffixedName base counter) (counter + 1) fuel
    else cur

/-- The disambiguated name chosen by the `createNewFile` branch of
`savePreset`: the original name when free, else the first free
`base_1`, `base_2`, ... -/
def uniquePresetName (fileNames : List Str) (base : Str) : Str :=
  uniquePresetNameLoop fileNames base base 1 (fileNames.length + 2)

/-- `PresetManager::savePreset` (kolosal.cpp lines 245-317).  Returns the
new state and the boolean result.  The write to disk always succeeds in
the embedding (the open-failure early return is an I/O condition with no
counterpart in the pure directory model). -/
def savePreset (st : PresetManager) (preset : ModelPreset) (createNewFile : Bool)
    (now : Int) : PresetManager × Bool :=
  if isValidPresetName preset.name = false then (st, false)
  else
    let newName :=
      if createNewFile then uniquePresetName (st.files.map Prod.fst) preset.name
      else preset.name
    let newPreset := { preset with lastModified := now, name := newName }
    let files1 := setFile st.files (getPresetFilePath newName) newPreset
    let lists :=
      if createNewFile then
        (st.loadedPresets ++ [newPreset], st.originalPresets ++ [newPreset])
      else
        match findIndexByName newName st.loadedPresets with
        | some i => (st.loadedPresets.set i newPreset, st.originalPresets.set i newPreset)
        | none => (st.loadedPresets, st.originalPresets)
    let st1 : PresetManager :=
      { st with files := files1, loadedPresets := sortByLM lists.1,
                originalPresets := sortByLM lists.2 }
    (switchPreset st1 ((st1.loadedPresets.length : Int) - 1), true)

/-- `PresetManager::deletePreset` (kolosal.cpp lines 358-405): removes the
first entry matching the name from both collections, adjusts the current
index when it fell off the end, renumbers the ids, then deletes the file.
File removal always succeeds in the embedding, so the result is `true`. -/
def deletePreset (st : PresetManager) (presetName : Str) : PresetManager × Bool :=
  let st1 :=
    match findIndexByName presetName st.loadedPresets with
    | some i =>
      let loaded1 := st.loadedPresets.eraseIdx i
      let original1 := st.originalPresets.eraseIdx i
      let newIdx :=
        if (loaded1.length : Int) ≤ st.currentPresetIndex then
          if loaded1.isEmpty then -1 else (loaded1.length : Int) - 1
        else st.currentPresetIndex
      { st with loadedPresets := renumberIds loaded1,
                originalPresets := renumberIds original1,
                currentPresetIndex := newIdx }
    | none => st
  ({ st1 with files := removeFile st1.files (getPresetFilePath presetName) }, true)

/-- `PresetManager::saveDefaultPresets` (kolosal.cpp lines 504-516): saves
the in-memory default preset as a new file and marks the store
initialized. -/
def saveDefaultPresets (st : PresetManager) (now : Int) : PresetManager :=
  if st.hasInitialized = false then
    { (savePreset st st.defaultPreset true now).1 with hasInitialized := true }
  else st

/-- `PresetManager::loadPresets` (kolosal.cpp lines 180-236): clears both
collections, reads every preset file of the directory (every entry of the
embedded directory is a well-formed record, so none is skipped), seeds the
default preset when the directory was empty on first load, sorts both
collections by `lastModified` descending, and points the index at 0, or
at -1 when the store is empty. -/
def loadPresets (st : PresetManager) (now : Int) : PresetManager × Bool :=
  let presets := st.files.map Prod.snd
  let st1 := { st with loadedPresets := presets, originalPresets := presets }
  let st2 :=
    if presets.isEmpty ∧ st.hasInitialized = false then saveDefaultPresets st1 now
    else st1
  let st3 := { st2 with loadedPresets := sortByLM st2.loadedPresets,
                        originalPresets := sortByLM st2.originalPresets }
  ({ st3 with currentPresetIndex := if st3.loadedPresets.isEmpty then -1 else 0 }, true)

/-- Both collections index-aligned by name: the invariant as claimed. -/
def namesAligned : List ModelPreset → List ModelPreset → Bool
  | [], [] => true
  | a :: l, b :: o => decide (a.name = b.name) && namesAligned l o
  | _, _ => false

/-- Both collections index-aligned by name and by `lastModified`:
the strengthened (inductive) form of the invariant. -/
def fullAligned : List ModelPreset → List ModelPreset → Bool
  | [], [] => true
  | a :: l, b :: o =>
    decide (a.name = b.name) && decide (a.lastModified = b.lastModified) && fullAligned l o
  | _, _ => false

/-- Sorted by `lastModified` descending (newest first). -/
def sortedByLMDesc (l : List ModelPreset) : Prop :=
  l.Pairwise (fun a b => b.lastModified ≤ a.lastModified)

end Kolosal

namespace Chat

/-- The `Chat::Message` record (spec section 3): `id`, `role`, `content`,
`timestamp`. -/
structure Message where
  id : Int
  role : Kolosal.Str
  content : Kolosal.Str
  timestamp : Int
deriving DecidableEq

/-- The `Chat::ChatHistory` record (spec section 3): a named ordered
transcript. -/
structure ChatHistory where
  id : Int
  name : Kolosal.Str
  lastModified : Int
  messages : List Message
deriving DecidableEq

/-- Modelled from the spec: `Chat::ChatManager::addMessageToCurrentChat` is
declared in `chat/chat_manager.hpp`, which is not part of this source tree
(only its caller `renderInputField` in `chat_section.hpp` is).  Per the
spec it "assigns `message.id = currentSession.messages.size() + 1`,
appends; updates `lastModified`". -/
def addMessageToCurrentChat (chat : ChatHistory) (msg : Message) (now : Int) : ChatHistory :=
  { chat with
      messages := chat.messages ++ [{ msg with id := (chat.messages.length : Int) + 1 }],
      lastModified := now }

end Chat

namespace Kolosal

/-- Decodes little-endian decimal digits; left inverse of `digitsRev`. -/
def ofDigitsRev : List Nat → Nat
  | [] => 0
  | d :: ds => d + 10 * ofDigitsRev ds

/-- Builds a preset record varying the fields the concrete scenarios need. -/
def mkPreset (id lm : Int) (nm : Str) (temp : Int) : ModelPreset :=
  { defaultMP with id := id, lastModified := lm, name := nm, temperature := temp }

/-- Builds a store whose two collections and directory agree on the given
presets, with the given current index. -/
def mkStore (presets : List ModelPreset) (idx : Int) : PresetManager :=
  { loadedPresets := presets, originalPresets := presets, defaultPreset := defaultMP,
    currentPresetIndex := idx, hasInitialized := true,
    files := presets.map (fun p => (getPresetFilePath p.name, p)) }

/-- Preset "A", lastModified 100. -/
def presetA : ModelPreset := mkPreset 1 100 ['A'] 0

/-- Preset "B", lastModified 50. -/
def presetB : ModelPreset := mkPreset 2 50 ['B'] 0

/-- A clean two-preset store, "A" (100) current, then "B" (50). -/
def storeAB : PresetManager := mkStore [presetA, presetB] 0

/-- Preset "B" with lastModified 200 and temperature 7, as persisted. -/
def presetB200 : ModelPreset := mkPreset 1 200 ['B'] 7

/-- The same preset "B" after an in-place edit of its temperature. -/
def presetB200e : ModelPreset := mkPreset 1 200 ['B'] 9

/-- Preset "A", lastModified 100, for the dirty-store scenario. -/
def presetA100 : ModelPreset := mkPreset 2 100 ['A'] 0

/-- A store where the current preset "B" has an unsaved temperature edit
and "A" is clean. -/
def storeDirtyB : PresetManager :=
  { mkStore [presetB200, presetA100] 0 with loadedPresets := [presetB200e, presetA100] }

/-- A clean three-preset store "A" (30, id 1), "B" (20, id 2), "C" (10, id 3),
current index 2. -/
def storeABC : PresetManager :=
  mkStore [mkPreset 1 30 ['A'] 0, mkPreset 2 20 ['B'] 0, mkPreset 3 10 ['C'] 0] 2

/-- A store whose directory holds "A" (lastModified 100) and "B" (200):
the loadAll scenario of the spec. -/
def storeDirAB : PresetManager :=
  { mkStore [presetA, mkPreset 2 200 ['B'] 0] 0 with
      loadedPresets := [], originalPresets := [], currentPresetIndex := -1 }

/-- Preset "foo". -/
def presetFoo : ModelPreset := mkPreset 1 10 ['f', 'o', 'o'] 0

/-- A clean single-preset store holding "foo". -/
def storeFoo : PresetManager := mkStore [presetFoo] 0

/-- The preset "foo" after an in-place edit of its temperature. -/
def fooEdit : ModelPreset := mkPreset 1 10 ['f', 'o', 'o'] 9

/-- A store holding "foo" whose current loaded entry carries the unsaved
temperature edit `fooEdit` while the original snapshot and the file hold
the persisted "foo". -/
def storeFooDirty : PresetManager :=
  { mkStore [presetFoo] 0 with loadedPresets := [fooEdit] }

/-- A store whose collections are aligned by name but not by
`lastModified`: loaded holds "A" (10), "B" (5); original holds "A" (1),
"B" (20). -/
def storeMisaligned : PresetManager :=
  { mkStore [mkPreset 1 10 ['A'] 0, mkPreset 2 5 ['B'] 0] 0 with
      originalPresets := [mkPreset 1 1 ['A'] 0, mkPreset 2 20 ['B'] 0] }

/-- Preset "C" used to trigger the misalignment. -/
def presetC : ModelPreset := mkPreset 3 0 ['C'] 0

/-- An empty store with the sentinel current index. -/
def storeEmpty : PresetManager := { mkStore [] 0 with currentPresetIndex := -1 }

/-- A name starting with an embedded NUL byte. -/
def nulName : Str := [nulChar, 'a']

/-- The conclusion of claim C3 for an in-range switch away from a dirty
current preset: the index moves, the original snapshots are untouched, and
the loaded entry at the previously current index is overwritten with its
original snapshot, so reselecting that index shows the original fields. -/
def switchPresetClaim (st : PresetManager) (i : Int) : Prop :=
  (switchPreset st i).currentPresetIndex = i ∧
  (switchPreset st i).originalPresets = st.originalPresets ∧
  (switchPreset st i).loadedPresets =
    st.loadedPresets.set st.currentPresetIndex.toNat
      (st.originalPresets.getD st.currentPresetIndex.toNat defaultMP) ∧
  (switchPreset st i).loadedPresets.getD st.currentPresetIndex.toNat defaultMP =
    st.originalPresets.getD st.currentPresetIndex.toNat defaultMP

/-- The conclusion of claim C5 for `deletePreset` when the first entry
named `presetName` sits at index `i`: exactly that entry is removed from
both collections, its backing file is deleted, the remaining ids are
renumbered `1..N`, and — when the removed entry was the current index or
beyond — the current index is clamped to the new last valid index, or to
-1 when the store became empty. -/
def deletePresetClaim (st : PresetManager) (presetName : Str) (i : Nat) : Prop :=
  (deletePreset st presetName).2 = true ∧
  (deletePreset st presetName).1.loadedPresets = renumberIds (st.loadedPresets.eraseIdx i) ∧
  (deletePreset st presetName).1.originalPresets = renumberIds (st.originalPresets.eraseIdx i) ∧
  (st.loadedPresets.getD i defaultMP).name = presetName ∧
  (st.originalPresets.getD i defaultMP).name = presetName ∧
  (deletePreset st presetName).1.files = removeFile st.files (getPresetFilePath presetName) ∧
  (deletePreset st presetName).1.loadedPresets.length + 1 = st.loadedPresets.length ∧
  (∀ j, j < (deletePreset st presetName).1.loadedPresets.length →
    ((deletePreset st presetName).1.loadedPresets.getD j defaultMP).id = (j : Int) + 1 ∧
    ((deletePreset st presetName).1.originalPresets.getD j defaultMP).id = (j : Int) + 1) ∧
  (st.currentPresetIndex ≤ (i : Int) →
    (deletePreset st presetName).1.currentPresetIndex =
      if st.loadedPresets.length = 1 then -1
      else min st.currentPresetIndex ((st.loadedPresets.length : Int) - 2))

/-- The conclusion of claim C7 for `savePreset(preset, createNewFile=true)`
when the file of `preset.name` already exists: the preset is persisted
under the name with the smallest free numeric suffix, stamped with the
save time, added to both collections, and the pre-existing file and
in-memory entries are all left untouched. -/
def savedAsNewClaim (st : PresetManager) (preset : ModelPreset) (now : Int) : Prop :=
  ∃ k, 1 ≤ k ∧
    getPresetFilePath (suffixedName preset.name k) ∉ st.files.map Prod.fst ∧
    (∀ j, 1 ≤ j → j < k → getPresetFilePath (suffixedName preset.name j) ∈ st.files.map Prod.fst) ∧
    (savePreset st preset true now).2 = true ∧
    lookupFile (savePreset st preset true now).1.files
        (getPresetFilePath (suffixedName preset.name k))
      = some { preset with lastModified := now, name := suffixedName preset.name k } ∧
    lookupFile (savePreset st preset true now).1.files (getPresetFilePath preset.name)
      = lookupFile st.files (getPresetFilePath preset.name) ∧
    { preset with lastModified := now, name := suffixedName preset.name k }
      ∈ (savePreset st preset true now).1.loadedPresets ∧
    { preset with lastModified := now, name := suffixedName preset.name k }
      ∈ (savePreset st preset true now).1.originalPresets ∧
    (∀ q ∈ st.loadedPresets, q ∈ (savePreset st preset true now).1.loadedPresets) ∧
    (∀ q ∈ st.originalPresets, q ∈ (savePreset st preset true now).1.originalPresets)

/-- The strengthened store invariant of claim C9: the two collections are
index-aligned by name and by `lastModified` (and hence have equal length). -/
def alignedState (st : PresetManager) : Prop :=
  fullAligned st.loadedPresets st.originalPresets = true

end Kolosal



namespace Kolosal

theorem mem_insertByLM {x p : ModelPreset} {l : List ModelPreset} :
    x ∈ insertByLM p l ↔ x = p ∨ x ∈ l := by
  induction l with
  | nil => simp [insertByLM]
  | cons q qs ih =>
    simp only [insertByLM]
    split
    · simp [List.mem_cons]
    · simp only [List.mem_cons, ih]
      tauto

theorem mem_sortByLM {x : ModelPreset} {l : List ModelPreset} :
    x ∈ sortByLM l ↔ x ∈ l := by
  induction l with
  | nil => simp [sortByLM]
  | cons p ps ih => simp [sortByLM, mem_insertByLM, ih]

theorem sorted_insertByLM {p : ModelPreset} {l : List ModelPreset}
    (h : sortedByLMDesc l) : sortedByLMDesc (insertByLM p l) := by
  induction l with
  | nil => simp [insertByLM, sortedByLMDesc]
  | cons q qs ih =>
    rw [sortedByLMDesc, List.pairwise_cons] at h
    obtain ⟨hq, hqs⟩ := h
    simp only [insertByLM]
    split
    · rename_i hlt
      rw [sortedByLMDesc, List.pairwise_cons]
      refine ⟨?_, ?_⟩
      · intro b hb
        rcases List.mem_cons.mp hb with rfl | hb
        · exact le_of_lt hlt
        · exact le_trans (hq b hb) (le_of_lt hlt)
      · rw [List.pairwise_cons]
        exact ⟨hq, hqs⟩
    · rename_i hnlt
      rw [sortedByLMDesc, List.pairwise_cons]
      refine ⟨?_, ih hqs⟩
      intro b hb
      rcases mem_insertByLM.mp hb with rfl | hb
      · omega
      · exact hq b hb

theorem sorted_sortByLM (l : List ModelPreset) : sortedByLMDesc (sortByLM l) := by
  induction l with
  | nil => simp [sortByLM, sortedByLMDesc]
  | cons p ps ih => exact sorted_insertByLM ih

theorem fullAligned_refl (l : List ModelPreset) : fullAligned l l = true := by
  induction l with
  | nil => rfl
  | cons p ps ih => simp [fullAligned, ih]

theorem fullAligned_insert {a b : ModelPreset} {l o : List ModelPreset}
    (hab1 : a.name = b.name) (hab2 : a.lastModified = b.lastModified)
    (h : fullAligned l o = true) :
    fullAligned (insertByLM a l) (insertByLM b o) = true := by
  induction l generalizing o with
  | nil =>
    cases o with
    | nil => simp [insertByLM, fullAligned, hab1, hab2]
    | cons r o' => simp [fullAligned] at h
  | cons q l' ih =>
    cases o with
    | nil => simp [fullAligned] at h
    | cons r o' =>
      simp only [fullAligned, Bool.and_eq_true, decide_eq_true_eq] at h
      obtain ⟨⟨hn, hm⟩, ht⟩ := h
      simp only [insertByLM]
      by_cases hc : q.lastModified < a.lastModified
      · rw [if_pos hc, if_pos (by rw [← hm, ← hab2]; exact hc)]
        simp [fullAligned, hab1, hab2, hn, hm, ht]
      · rw [if_neg hc, if_neg (by rw [← hm, ← hab2]; exact hc)]
        simp [fullAligned, hn, hm, ih ht]

theorem fullAligned_sortByLM {l o : List ModelPreset} (h : fullAligned l o = true) :
    fullAligned (sortByLM l) (sortByLM o) = true := by
  induction l generalizing o with
  | nil =>
    cases o with
    | nil => simpa [sortByLM] using h
    | cons r o' => simp [fullAligned] at h
  | cons q l' ih =>
    cases o with
    | nil => simp [fullAligned] at h
    | cons r o' =>
      simp only [fullAligned, Bool.and_eq_true, decide_eq_true_eq] at h
      obtain ⟨⟨hn, hm⟩, ht⟩ := h
      exact fullAligned_insert hn hm (ih ht)

theorem fullAligned_append_single {l o : List ModelPreset} (p : ModelPreset)
    (h : fullAligned l o = true) : fullAligned (l ++ [p]) (o ++ [p]) = true := by
  induction l generalizing o with
  | nil =>
    cases o with
    | nil => simp [fullAligned]
    | cons r o' => simp [fullAligned] at h
  | cons q l' ih =>
    cases o with
    | nil => simp [fullAligned] at h
    | cons r o' =>
      simp only [fullAligned, Bool.and_eq_true, decide_eq_true_eq] at h
      simp only [List.cons_append, fullAligned, Bool.and_eq_true, decide_eq_true_eq]
      exact ⟨h.1, ih h.2⟩

theorem fullAligned_set {l o : List ModelPreset} (p : ModelPreset) (i : Nat)
    (h : fullAligned l o = true) : fullAligned (l.set i p) (o.set i p) = true := by
  induction l generalizing o i with
  | nil =>
    cases o with
    | nil => simpa using h
    | cons r o' => simp [fullAligned] at h
  | cons q l' ih =>
    cases o with
    | nil => simp [fullAligned] at h
    | cons r o' =>
      simp only [fullAligned, Bool.and_eq_true, decide_eq_true_eq] at h
      cases i with
      | zero => simp [List.set, fullAligned, h.2]
      | succ j =>
        simp only [List.set, fullAligned, Bool.and_eq_true, decide_eq_true_eq]
        exact ⟨h.1, ih j h.2⟩

theorem fullAligned_set_orig {l o : List ModelPreset} (i : Nat) (d : ModelPreset)
    (h : fullAligned l o = true) : fullAligned (l.set i (o.getD i d)) o = true := by
  induction l generalizing o i with
  | nil =>
    cases o with
    | nil => simpa using h
    | cons r o' => simp [fullAligned] at h
  | cons q l' ih =>
    cases o with
    | nil => simp [fullAligned] at h
    | cons r o' =>
      simp only [fullAligned, Bool.and_eq_true, decide_eq_true_eq] at h
      cases i with
      | zero => simp [List.set, List.getD, fullAligned, h.2]
      | succ j =>
        simp only [List.set, List.getD_cons_succ, fullAligned, Bool.and_eq_true,
          decide_eq_true_eq]
        exact ⟨h.1, ih j h.2⟩

theorem fullAligned_eraseIdx {l o : List ModelPreset} (i : Nat)
    (h : fullAligned l o = true) : fullAligned (l.eraseIdx i) (o.eraseIdx i) = true := by
  induction l generalizing o i with
  | nil =>
    cases o with
    | nil => simpa using h
    | cons r o' => simp [fullAligned] at h
  | cons q l' ih =>
    cases o with
    | nil => simp [fullAligned] at h
    | cons r o' =>
      simp only [fullAligned, Bool.and_eq_true, decide_eq_true_eq] at h
      cases i with
      | zero => simpa [List.eraseIdx] using h.2
      | succ j =>
        simp only [List.eraseIdx, fullAligned, Bool.and_eq_true, decide_eq_true_eq]
        exact ⟨h.1, ih j h.2⟩

theorem fullAligned_renumberFrom {l o : List ModelPreset} (k : Int)
    (h : fullAligned l o = true) :
    fullAligned (renumberFrom k l) (renumberFrom k o) = true := by
  induction l generalizing o k with
  | nil =>
    cases o with
    | nil => simpa using h
    | cons r o' => simp [fullAligned] at h
  | cons q l' ih =>
    cases o with
    | nil => simp [fullAligned] at h
    | cons r o' =>
      simp only [fullAligned, Bool.and_eq_true, decide_eq_true_eq] at h
      simp only [renumberFrom, fullAligned, Bool.and_eq_true, decide_eq_true_eq]
      exact ⟨h.1, ih k.succ h.2⟩

end Kolosal

namespace Kolosal

theorem presetDiffers_self (c : ModelPreset) : presetDiffers c c = false := by
  simp [presetDiffers]

theorem hasUnsaved_bounds {st : PresetManager} (h : hasUnsavedChanges st = true) :
    0 ≤ st.currentPresetIndex ∧
    st.currentPresetIndex.toNat < st.loadedPresets.length ∧
    st.currentPresetIndex.toNat < st.originalPresets.length := by
  unfold hasUnsavedChanges at h
  split at h
  · simp at h
  · rename_i hneg
    split at h
    · rename_i c o hc ho
      refine ⟨by omega, ?_, ?_⟩
      · exact (List.getElem?_eq_some_iff.mp hc).1
      · exact (List.getElem?_eq_some_iff.mp ho).1
    · simp at h

theorem hasUnsaved_false_of_eq {st : PresetManager}
    (h : st.loadedPresets = st.originalPresets) : hasUnsavedChanges st = false := by
  unfold hasUnsavedChanges
  split
  · rfl
  · rw [h]
    rcases ho : st.originalPresets[st.currentPresetIndex.toNat]? with _ | c
    · simp
    · simp [presetDiffers_self]

theorem resetCurrentPreset_original (st : PresetManager) :
    (resetCurrentPreset st).originalPresets = st.originalPresets := by
  unfold resetCurrentPreset
  split <;> rfl

theorem resetCurrentPreset_files (st : PresetManager) :
    (resetCurrentPreset st).files = st.files := by
  unfold resetCurrentPreset
  split <;> rfl

theorem resetCurrentPreset_index (st : PresetManager) :
    (resetCurrentPreset st).currentPresetIndex = st.currentPresetIndex := by
  unfold resetCurrentPreset
  split <;> rfl

theorem switchPreset_files (st : PresetManager) (i : Int) :
    (switchPreset st i).files = st.files := by
  unfold switchPreset
  split
  · rfl
  · split
    · exact resetCurrentPreset_files st
    · rfl

theorem switchPreset_original (st : PresetManager) (i : Int) :
    (switchPreset st i).originalPresets = st.originalPresets := by
  unfold switchPreset
  split
  · rfl
  · split
    · exact resetCurrentPreset_original st
    · rfl

theorem switchPreset_clean (st : PresetManager) (i : Int)
    (h : hasUnsavedChanges st = false) :
    (switchPreset st i).loadedPresets = st.loadedPresets ∧
    (switchPreset st i).originalPresets = st.originalPresets := by
  unfold switchPreset
  split
  · exact ⟨rfl, rfl⟩
  · rw [h]
    simp

theorem resetCurrentPreset_aligned {st : PresetManager} (h : alignedState st) :
    alignedState (resetCurrentPreset st) := by
  unfold alignedState resetCurrentPreset
  split
  · exact fullAligned_set_orig _ _ h
  · exact h

theorem switchPreset_aligned {st : PresetManager} (i : Int) (h : alignedState st) :
    alignedState (switchPreset st i) := by
  unfold switchPreset
  split
  · exact h
  · split
    · exact resetCurrentPreset_aligned h
    · exact h

theorem savePreset_aligned {st : PresetManager} (p : ModelPreset) (b : Bool) (now : Int)
    (h : alignedState st) : alignedState (savePreset st p b now).1 := by
  simp only [savePreset]
  split
  · exact h
  · apply switchPreset_aligned
    cases b with
    | true =>
      exact fullAligned_sortByLM (fullAligned_append_single _ h)
    | false =>
      simp only [Bool.false_eq_true, if_false]
      rcases hf : findIndexByName p.name st.loadedPresets with _ | j
      · exact fullAligned_sortByLM h
      · exact fullAligned_sortByLM (fullAligned_set _ j h)

end Kolosal

namespace Kolosal

theorem deletePreset_aligned {st : PresetManager} (nm : Str) (h : alignedState st) :
    alignedState (deletePreset st nm).1 := by
  simp only [deletePreset]
  rcases hf : findIndexByName nm st.loadedPresets with _ | i
  · exact h
  · exact fullAligned_renumberFrom 1 (fullAligned_eraseIdx i h)

theorem saveDefaultPresets_aligned {st : PresetManager} (now : Int) (h : alignedState st) :
    alignedState (saveDefaultPresets st now) := by
  simp only [saveDefaultPresets]
  split
  · exact savePreset_aligned _ _ _ h
  · exact h

theorem loadPresets_aligned (st : PresetManager) (now : Int) :
    alignedState (loadPresets st now).1 := by
  simp only [loadPresets]
  split
  · exact fullAligned_sortByLM (saveDefaultPresets_aligned now (fullAligned_refl _))
  · exact fullAligned_sortByLM (fullAligned_refl _)

theorem findIndexByName_some {nm : Str} {l : List ModelPreset} {i : Nat}
    (h : findIndexByName nm l = some i) :
    i < l.length ∧ (l.getD i defaultMP).name = nm := by
  induction l generalizing i with
  | nil => simp [findIndexByName] at h
  | cons p ps ih =>
    simp only [findIndexByName] at h
    split at h
    · rename_i hp
      obtain rfl : (0 : Nat) = i := Option.some.inj h
      exact ⟨by simp, by simpa [List.getD] using hp⟩
    · rcases hmap : findIndexByName nm ps with _ | j
      · rw [hmap] at h
        simp at h
      · rw [hmap] at h
        obtain rfl : j + 1 = i := Option.some.inj h
        obtain ⟨h1, h2⟩ := ih hmap
        exact ⟨by simpa using Nat.succ_lt_succ h1, by simpa [List.getD] using h2⟩

theorem namesAligned_getD {l o : List ModelPreset} (h : namesAligned l o = true) :
    ∀ i, i < l.length → (l.getD i defaultMP).name = (o.getD i defaultMP).name := by
  induction l generalizing o with
  | nil => simp
  | cons q l' ih =>
    cases o with
    | nil => simp [namesAligned] at h
    | cons r o' =>
      simp only [namesAligned, Bool.and_eq_true, decide_eq_true_eq] at h
      intro i hi
      cases i with
      | zero => simpa [List.getD] using h.1
      | succ j =>
        simp only [List.getD_cons_succ]
        exact ih h.2 j (by simpa using hi)

theorem renumberFrom_length (k : Int) (l : List ModelPreset) :
    (renumberFrom k l).length = l.length := by
  induction l generalizing k with
  | nil => rfl
  | cons p ps ih => simp [renumberFrom, ih]

theorem renumberFrom_getD (l : List ModelPreset) :
    ∀ (k : Int) (j : Nat), j < l.length →
      ((renumberFrom k l).getD j defaultMP).id = k + j := by
  induction l with
  | nil => simp
  | cons p ps ih =>
    intro k j hj
    cases j with
    | zero => simp [renumberFrom, List.getD]
    | succ j' =>
      simp only [renumberFrom, List.getD_cons_succ]
      rw [ih (k + 1) j' (by simpa using hj)]
      push_cast
      ring

end Kolosal

namespace Kolosal

theorem ofDigitsRev_digitsRevAux :
    ∀ fuel n, n ≤ fuel → ofDigitsRev (digitsRevAux fuel n) = n := by
  intro fuel
  induction fuel with
  | zero =>
    intro n h
    obtain rfl : n = 0 := by omega
    rfl
  | succ f ih =>
    intro n h
    simp only [digitsRevAux]
    split
    · rename_i h0
      subst h0
      rfl
    · rename_i h0
      simp only [ofDigitsRev]
      rw [ih (n / 10) (by omega)]
      omega

theorem digitsRev_inj {m n : Nat} (h : digitsRev m = digitsRev n) : m = n := by
  have hm := ofDigitsRev_digitsRevAux m m le_rfl
  have hn := ofDigitsRev_digitsRevAux n n le_rfl
  unfold digitsRev at h
  rw [← hm, ← hn, h]

theorem digitsRevAux_lt10 :
    ∀ fuel n d, d ∈ digitsRevAux fuel n → d < 10 := by
  intro fuel
  induction fuel with
  | zero => simp [digitsRevAux]
  | succ f ih =>
    intro n d hd
    simp only [digitsRevAux] at hd
    split at hd
    · simp at hd
    · rcases List.mem_cons.mp hd with rfl | hd
      · exact Nat.mod_lt _ (by omega)
      · exact ih _ _ hd

theorem digitChar_inj10 {d e : Nat} (hd : d < 10) (he : e < 10)
    (h : digitChar d = digitChar e) : d = e := by
  have H : ∀ a b : Fin 10, digitChar a.val = digitChar b.val → a = b := by decide
  simpa using congrArg Fin.val (H ⟨d, hd⟩ ⟨e, he⟩ h)

theorem map_digitChar_inj :
    ∀ l₁ l₂ : List Nat, (∀ d ∈ l₁, d < 10) → (∀ d ∈ l₂, d < 10) →
      l₁.map digitChar = l₂.map digitChar → l₁ = l₂ := by
  intro l₁
  induction l₁ with
  | nil =>
    intro l₂ _ _ h
    cases l₂ with
    | nil => rfl
    | cons e es => simp at h
  | cons d ds ih =>
    intro l₂ h1 h2 h
    cases l₂ with
    | nil => simp at h
    | cons e es =>
      simp only [List.map_cons, List.cons.injEq] at h
      have hd : d = e :=
        digitChar_inj10 (h1 d (by simp)) (h2 e (by simp)) h.1
      rw [hd, ih es (fun x hx => h1 x (by simp [hx])) (fun x hx => h2 x (by simp [hx])) h.2]

theorem natToChars_inj {m n : Nat} (h : natToChars m = natToChars n) : m = n := by
  unfold natToChars at h
  have h1 := List.reverse_inj.mp h
  exact digitsRev_inj
    (map_digitChar_inj _ _ (digitsRevAux_lt10 m m) (digitsRevAux_lt10 n n) h1)

theorem suffixedName_inj {base : Str} {j k : Nat}
    (h : suffixedName base j = suffixedName base k) : j = k := by
  unfold suffixedName at h
  have h2 := List.append_cancel_left h
  simp only [List.cons.injEq, true_and] at h2
  exact natToChars_inj h2

theorem getPresetFilePath_inj {a b : Str} (h : getPresetFilePath a = getPresetFilePath b) :
    a = b := List.append_cancel_right h

theorem suffixedName_ne_base (base : Str) (k : Nat) : suffixedName base k ≠ base := by
  intro h
  have := congrArg List.length h
  simp [suffixedName] at this

theorem candidate_injective (base : Str) :
    Function.Injective (fun i : Nat => getPresetFilePath (suffixedName base (i + 1))) := by
  intro x y h
  have := suffixedName_inj (getPresetFilePath_inj h)
  omega

theorem not_all_candidates_taken (fileNames : List Str) (base : Str) :
    ¬ ∀ j, 1 ≤ j → j ≤ fileNames.length + 1 →
        getPresetFilePath (suffixedName base j) ∈ fileNames := by
  intro h
  have nd : ((List.range (fileNames.length + 1)).map
      (fun i => getPresetFilePath (suffixedName base (i + 1)))).Nodup :=
    (List.nodup_range _).map (candidate_injective base)
  have sub : ((List.range (fileNames.length + 1)).map
      (fun i => getPresetFilePath (suffixedName base (i + 1)))) ⊆ fileNames := by
    intro x hx
    obtain ⟨i, hi, rfl⟩ := List.mem_map.mp hx
    have hi' : i < fileNames.length + 1 := List.mem_range.mp hi
    exact h (i + 1) (by omega) (by omega)
  have hle := (List.subperm_of_subset nd sub).length_le
  simp at hle

theorem uniquePresetNameLoop_spec (fileNames : List Str) (base : Str) :
    ∀ fuel counter, 2 ≤ counter → counter + fuel = fileNames.length + 3 →
    (∀ j, 1 ≤ j → j + 1 < counter → getPresetFilePath (suffixedName base j) ∈ fileNames) →
    ∃ k, 1 ≤ k ∧ getPresetFilePath (suffixedName base k) ∉ fileNames ∧
      (∀ j, 1 ≤ j → j < k → getPresetFilePath (suffixedName base j) ∈ fileNames) ∧
      uniquePresetNameLoop fileNames base (suffixedName base (counter - 1)) counter fuel
        = suffixedName base k := by
  intro fuel
  induction fuel with
  | zero =>
    intro counter h2 hsum hprev
    exfalso
    apply not_all_candidates_taken fileNames base
    intro j hj1 hj2
    exact hprev j hj1 (by omega)
  | succ fuel ih =>
    intro counter h2 hsum hprev
    simp only [uniquePresetNameLoop]
    by_cases hc : getPresetFilePath (suffixedName base (counter - 1)) ∈ fileNames
    · rw [if_pos hc]
      have hext : ∀ j, 1 ≤ j → j + 1 < counter + 1 →
          getPresetFilePath (suffixedName base j) ∈ fileNames := by
        intro j hj1 hj2
        by_cases hj : j = counter - 1
        · subst hj
          exact hc
        · exact hprev j hj1 (by omega)
      obtain ⟨k, hk1, hk2, hk3, hk4⟩ := ih (counter + 1) (by omega) (by omega) hext
      refine ⟨k, hk1, hk2, hk3, ?_⟩
      have hr : counter + 1 - 1 = counter := by omega
      rw [hr] at hk4
      exact hk4
    · rw [if_neg hc]
      exact ⟨counter - 1, by omega, hc,
        fun j hj1 hj2 => hprev j hj1 (by omega), rfl⟩

theorem uniquePresetName_spec (fileNames : List Str) (base : Str)
    (hColl : getPresetFilePath base ∈ fileNames) :
    ∃ k, 1 ≤ k ∧ getPresetFilePath (suffixedName base k) ∉ fileNames ∧
      (∀ j, 1 ≤ j → j < k → getPresetFilePath (suffixedName base j) ∈ fileNames) ∧
      uniquePresetName fileNames base = suffixedName base k := by
  have hstep : uniquePresetName fileNames base
      = uniquePresetNameLoop fileNames base (suffixedName base 1) 2 (fileNames.length + 1) := by
    show uniquePresetNameLoop fileNames base base 1 (fileNames.length + 1 + 1) = _
    simp only [uniquePresetNameLoop]
    rw [if_pos hColl]
  obtain ⟨k, h1, h2, h3, h4⟩ := uniquePresetNameLoop_spec fileNames base
    (fileNames.length + 1) 2 (by omega) (by omega)
    (fun j hj1 hj2 => absurd hj2 (by omega))
  exact ⟨k, h1, h2, h3, by rw [hstep]; exact h4⟩

end Kolosal

namespace Kolosal

theorem lookupFile_map_replace {files : List (Str × ModelPreset)} {k : Str}
    (v : ModelPreset) (h : k ∈ files.map Prod.fst) :
    lookupFile (files.map (fun e => if e.1 = k then (k, v) else e)) k = some v := by
  induction files with
  | nil => simp at h
  | cons e es ih =>
    by_cases he : e.1 = k
    · simp [List.map_cons, if_pos he, lookupFile]
    · simp only [List.map_cons, if_neg he, lookupFile, if_neg he]
      apply ih
      simp only [List.map_cons, List.mem_cons] at h
      tauto

theorem lookupFile_append_fresh {files : List (Str × ModelPreset)} {k : Str}
    (v : ModelPreset) (h : k ∉ files.map Prod.fst) :
    lookupFile (files ++ [(k, v)]) k = some v := by
  induction files with
  | nil => simp [lookupFile]
  | cons e es ih =>
    simp only [List.map_cons, List.mem_cons] at h
    push_neg at h
    simp only [List.cons_append, lookupFile, if_neg (Ne.symm h.1)]
    exact ih h.2

theorem lookupFile_setFile_self (files : List (Str × ModelPreset)) (k : Str)
    (v : ModelPreset) : lookupFile (setFile files k v) k = some v := by
  unfold setFile
  split
  · exact lookupFile_map_replace v (by assumption)
  · exact lookupFile_append_fresh v (by assumption)

theorem lookupFile_map_ne {files : List (Str × ModelPreset)} {k k' : Str}
    (v : ModelPreset) (hne : k ≠ k') :
    lookupFile (files.map (fun e => if e.1 = k' then (k', v) else e)) k
      = lookupFile files k := by
  induction files with
  | nil => rfl
  | cons e es ih =>
    by_cases he : e.1 = k'
    · have hek : e.1 ≠ k := by rw [he]; exact Ne.symm hne
      simp only [List.map_cons, if_pos he, lookupFile, if_neg (Ne.symm hne), if_neg hek]
      exact ih
    · simp only [List.map_cons, if_neg he, lookupFile]
      by_cases hek : e.1 = k
      · rw [if_pos hek, if_pos hek]
      · rw [if_neg hek, if_neg hek]
        exact ih

theorem lookupFile_append_ne {files : List (Str × ModelPreset)} {k k' : Str}
    (v : ModelPreset) (hne : k ≠ k') :
    lookupFile (files ++ [(k', v)]) k = lookupFile files k := by
  induction files with
  | nil => simp [lookupFile, Ne.symm hne]
  | cons e es ih =>
    simp only [List.cons_append, lookupFile]
    by_cases hek : e.1 = k
    · rw [if_pos hek, if_pos hek]
    · rw [if_neg hek, if_neg hek]
      exact ih

theorem lookupFile_setFile_ne (files : List (Str × ModelPreset)) {k k' : Str}
    (v : ModelPreset) (hne : k ≠ k') :
    lookupFile (setFile files k' v) k = lookupFile files k := by
  unfold setFile
  split
  · exact lookupFile_map_ne v hne
  · exact lookupFile_append_ne v hne

end Kolosal

namespace Kolosal

theorem strlenData_eq_zero (name : Str) :
    strlenData name = 0 ↔ (name = [] ∨ name.head? = some nulChar) := by
  cases name with
  | nil => simp [strlenData]
  | cons c t =>
    simp only [strlenData, List.takeWhile_cons]
    by_cases hc : c = nulChar
    · simp [hc]
    · simp [hc]

/-- Claim C4 (counterexample): the name consisting of a NUL byte followed
by a letter is rejected by `isValidPresetName`, although it is non-empty,
within the length ceiling, and free of the nine forbidden characters —
so the claimed characterization of rejection is not exhaustive. -/
theorem isValidPresetName_claim_ce :
    isValidPresetName nulName = false ∧ nulName ≠ [] ∧ nulName.length ≤ 256 ∧
      ∀ c ∈ nulName, c ∉ invalidChars := by
  decide

/-- Claim C4 (amended): `isValidPresetName` returns `false` exactly when
the name is empty, starts with a NUL byte (the `strlen(name.data()) == 0`
test), is longer than 256 characters, or contains one of the characters
`< > : " / \ | ? *`. -/
theorem isValidPresetName_spec (name : Str) :
    isValidPresetName name = false ↔
      (name = [] ∨ name.head? = some nulChar ∨ 256 < name.length ∨
        ∃ c ∈ name, c ∈ invalidChars) := by
  unfold isValidPresetName
  split
  · rename_i h1
    simp only [true_iff]
    rcases h1 with h1 | h1
    · rcases (strlenData_eq_zero name).mp h1 with h | h
      · exact Or.inl h
      · exact Or.inr (Or.inl h)
    · exact Or.inr (Or.inr (Or.inl h1))
  · rename_i h1
    push_neg at h1
    split
    · rename_i h2
      simp only [true_iff]
      obtain ⟨c, hc1, hc2⟩ := List.any_eq_true.mp h2
      exact Or.inr (Or.inr (Or.inr ⟨c, hc1, List.elem_iff.mp hc2⟩))
    · rename_i h2
      simp only [Bool.true_eq_false, false_iff]
      intro hor
      rcases hor with h | h | h | ⟨c, hc1, hc2⟩
      · exact h1.1 ((strlenData_eq_zero name).mpr (Or.inl h))
      · exact h1.1 ((strlenData_eq_zero name).mpr (Or.inr h))
      · omega
      · exact h2 (List.any_eq_true.mpr ⟨c, hc1, List.elem_iff.mpr hc2⟩)

/-- Claim C4 (witness): the amended characterization evaluated at the
one-letter name "a". -/
theorem isValidPresetName_spec_witness :
    isValidPresetName ['a'] = false ↔
      (['a'] = ([] : Str) ∨ ['a'].head? = some nulChar ∨ 256 < ['a'].length ∨
        ∃ c ∈ ['a'], c ∈ invalidChars) :=
  isValidPresetName_spec ['a']

/-- Claim C1 (code bug): on the two-preset store "A" (lastModified 100,
current) and "B" (50), a successful `savePreset(A, createNewFile=false)`
at time 200 leaves `currentPresetIndex = 1`, but after the descending
re-sort the just-saved entry (the one stamped 200) sits at index 0 and
index 1 holds the untouched entry stamped 50: the index does not point at
the saved entry, contradicting the claim and the source comment "Set
current preset to the saved preset". -/
theorem savePreset_currentIndex_bug :
    (savePreset storeAB presetA false 200).2 = true ∧
    (savePreset storeAB presetA false 200).1.currentPresetIndex = 1 ∧
    ((savePreset storeAB presetA false 200).1.loadedPresets.getD 0 defaultMP).lastModified
      = 200 ∧
    ((savePreset storeAB presetA false 200).1.loadedPresets.getD 1 defaultMP).lastModified
      = 50 := by
  decide

/-- Claim C2 (code bug): on a store where the current preset "B" carries
an unsaved temperature edit, a successful `savePreset(A, createNewFile=false)`
does replace the entry named "A" in both collections (so that entry is
clean), yet `hasUnsavedChanges()` afterwards returns `true`: the trailing
`switchPreset(size-1)` parks the current index on the still-dirty "B"
instead of the saved entry. -/
theorem savePreset_unsavedChanges_bug :
    (savePreset storeDirtyB presetA100 false 300).2 = true ∧
    (savePreset storeDirtyB presetA100 false 300).1.loadedPresets.getD 0 defaultMP
      = { presetA100 with lastModified := 300 } ∧
    (savePreset storeDirtyB presetA100 false 300).1.originalPresets.getD 0 defaultMP
      = { presetA100 with lastModified := 300 } ∧
    hasUnsavedChanges (savePreset storeDirtyB presetA100 false 300).1 = true := by
  decide

/-- Claim C3: `switchPreset` is a silent no-op on an out-of-range index;
on an in-range index with a dirty current preset it first overwrites the
current loaded entry with its original snapshot and then moves the index,
so reselecting the previously current index shows the original fields. -/
theorem switchPreset_spec (st : PresetManager) (i : Int) :
    ((i < 0 ∨ (st.loadedPresets.length : Int) ≤ i) → switchPreset st i = st) ∧
    (0 ≤ i → i < (st.loadedPresets.length : Int) → hasUnsavedChanges st = true →
      switchPresetClaim st i) := by
  constructor
  · intro h
    unfold switchPreset
    rw [if_pos h]
  · intro h1 h2 hd
    obtain ⟨hc0, hcl, hco⟩ := hasUnsaved_bounds hd
    have hguard : ¬(i < 0 ∨ (st.loadedPresets.length : Int) ≤ i) := by omega
    have hreset : (resetCurrentPreset st).loadedPresets =
        st.loadedPresets.set st.currentPresetIndex.toNat
          (st.originalPresets.getD st.currentPresetIndex.toNat defaultMP) := by
      unfold resetCurrentPreset
      rw [if_pos ⟨hc0, by omega⟩]
    unfold switchPresetClaim switchPreset
    rw [if_neg hguard, if_pos hd]
    refine ⟨rfl, resetCurrentPreset_original st, hreset, ?_⟩
    rw [hreset]
    simp [List.getD_eq_getElem?_getD, List.getElem?_set_self, hcl]

/-- Claim C3 (witness): on the dirty store, switching to index 5 is a
no-op and switching to index 1 moves the index and restores the loaded
entry at the previously current index to its original snapshot. -/
theorem switchPreset_spec_witness :
    switchPreset storeDirtyB 5 = storeDirtyB ∧ switchPresetClaim storeDirtyB 1 :=
  ⟨(switchPreset_spec storeDirtyB 5).1 (Or.inr (by decide)),
   (switchPreset_spec storeDirtyB 1).2 (by decide) (by decide) (by decide)⟩

/-- Claim C6: after `loadPresets`, both collections are sorted by
`lastModified` descending, the current index is 0 for a non-empty store
and -1 otherwise, and on the directory holding "A" (100) and "B" (200)
the first loaded preset is "B". -/
theorem loadPresets_spec (st : PresetManager) (now : Int) :
    sortedByLMDesc (loadPresets st now).1.loadedPresets ∧
    sortedByLMDesc (loadPresets st now).1.originalPresets ∧
    ((loadPresets st now).1.currentPresetIndex
      = if (loadPresets st now).1.loadedPresets.isEmpty then -1 else 0) ∧
    ((loadPresets storeDirAB 300).1.loadedPresets.getD 0 defaultMP).name = ['B'] := by
  refine ⟨?_, ?_, rfl, by decide⟩
  · exact sorted_sortByLM _
  · exact sorted_sortByLM _

/-- Claim C6 (witness): the sortedness and index conclusions evaluated on
the concrete two-file directory. -/
theorem loadPresets_spec_witness :
    sortedByLMDesc (loadPresets storeDirAB 300).1.loadedPresets ∧
    (loadPresets storeDirAB 300).1.currentPresetIndex
      = if (loadPresets storeDirAB 300).1.loadedPresets.isEmpty then -1 else 0 :=
  ⟨(loadPresets_spec storeDirAB 300).1, (loadPresets_spec storeDirAB 300).2.2.1⟩

/-- Claim C8: appending two messages to an empty current chat session
yields messages with ids 1 and then 2, in insertion order, each id being
the prior message count plus one (`addMessageToCurrentChat` modelled from
the spec, as `chat_manager.hpp` is not part of this source tree). -/
theorem addMessage_twice_ids (chat : Chat.ChatHistory) (h : chat.messages = [])
    (m1 m2 : Chat.Message) (now1 now2 : Int) :
    ((Chat.addMessageToCurrentChat (Chat.addMessageToCurrentChat chat m1 now1) m2 now2).messages.map
      (fun m => (m.id, m.content))) = [(1, m1.content), (2, m2.content)] := by
  simp [Chat.addMessageToCurrentChat, h]

/-- Claim C8 (witness): the two-append scenario on a concrete empty
session. -/
theorem addMessage_twice_ids_witness :
    ((Chat.addMessageToCurrentChat
        (Chat.addMessageToCurrentChat ⟨1, ['s'], 0, []⟩ ⟨0, ['u'], ['h', 'i'], 5⟩ 5)
        ⟨0, ['u'], ['y', 'o'], 6⟩ 6).messages.map
      (fun m => (m.id, m.content))) = [(1, ['h', 'i']), (2, ['y', 'o'])] :=
  addMessage_twice_ids ⟨1, ['s'], 0, []⟩ rfl ⟨0, ['u'], ['h', 'i'], 5⟩ ⟨0, ['u'], ['y', 'o'], 6⟩ 5 6

/-- Claim C9 (counterexample): a store whose collections are index-aligned
by name but not by `lastModified` loses name-alignment across
`savePreset(C, createNewFile=true)`: the two collections are re-sorted
independently, and differing `lastModified` keys send the entries to
different positions. -/
theorem savePreset_alignment_ce :
    namesAligned storeMisaligned.loadedPresets storeMisaligned.originalPresets = true ∧
    namesAligned (savePreset storeMisaligned presetC true 15).1.loadedPresets
      (savePreset storeMisaligned presetC true 15).1.originalPresets = false := by
  decide

/-- Claim C9 (amended): every `PresetManager` operation preserves the
strengthened invariant that the two collections are index-aligned by name
and by `lastModified` (which forces equal length); name-alignment alone is
not inductive. -/
theorem presetOps_preserve_alignment (st : PresetManager) (p : ModelPreset) (b : Bool)
    (nm : Str) (i now : Int) (h : alignedState st) :
    alignedState (loadPresets st now).1 ∧ alignedState (savePreset st p b now).1 ∧
    alignedState (deletePreset st nm).1 ∧ alignedState (switchPreset st i) ∧
    alignedState (resetCurrentPreset st) :=
  ⟨loadPresets_aligned st now, savePreset_aligned p b now h, deletePreset_aligned nm h,
   switchPreset_aligned i h, resetCurrentPreset_aligned h⟩

/-- Claim C9 (witness): preservation of the strengthened invariant on the
concrete clean store. -/
theorem presetOps_preserve_alignment_witness :
    alignedState (switchPreset storeAB 1) ∧ alignedState (resetCurrentPreset storeAB) :=
  ⟨(presetOps_preserve_alignment storeAB presetA false ['A'] 1 0
      (by unfold alignedState; decide)).2.2.2.1,
   (presetOps_preserve_alignment storeAB presetA false ['A'] 1 0
      (by unfold alignedState; decide)).2.2.2.2⟩

/-- Claim C10: `getCurrentPreset` returns an entry exactly under the
precondition that the current index is in range of the loaded collection
(`some` in the total embedding); on the empty store (index -1, as
`loadPresets` sets it) the unchecked access yields `none`, while
`hasUnsavedChanges` and `resetCurrentPreset` guard that case and
respectively return `false` and change nothing. -/
theorem getCurrentPreset_spec (st : PresetManager) (now : Int) :
    (0 ≤ st.currentPresetIndex → st.currentPresetIndex < (st.loadedPresets.length : Int) →
      (getCurrentPreset st).isSome = true) ∧
    (st.currentPresetIndex = -1 →
      getCurrentPreset st = none ∧ hasUnsavedChanges st = false ∧
      resetCurrentPreset st = st) ∧
    (st.loadedPresets = [] → getCurrentPreset st = none) ∧
    (st.files = [] → st.hasInitialized = true →
      (loadPresets st now).1.currentPresetIndex = -1 ∧
      getCurrentPreset (loadPresets st now).1 = none) := by
  refine ⟨?_, ?_, ?_, ?_⟩
  · intro h1 h2
    unfold getCurrentPreset
    rw [if_neg (by omega)]
    simp [List.getElem?_eq_getElem (show st.currentPresetIndex.toNat < st.loadedPresets.length by omega)]
  · intro h
    refine ⟨?_, ?_, ?_⟩
    · unfold getCurrentPreset
      rw [if_pos (by omega)]
    · unfold hasUnsavedChanges
      rw [if_pos (by omega)]
    · unfold resetCurrentPreset
      rw [if_neg (by omega)]
  · intro h
    unfold getCurrentPreset
    split
    · rfl
    · simp [h]
  · intro h1 h2
    have : (loadPresets st now).1.currentPresetIndex = -1 := by
      simp [loadPresets, h1, h2, sortByLM]
    refine ⟨this, ?_⟩
    unfold getCurrentPreset
    rw [if_pos (by omega)]

/-- Claim C10 (witness): the conclusions evaluated on the empty store. -/
theorem getCurrentPreset_spec_witness :
    getCurrentPreset storeEmpty = none ∧ hasUnsavedChanges storeEmpty = false ∧
    resetCurrentPreset storeEmpty = storeEmpty :=
  (getCurrentPreset_spec storeEmpty 0).2.1 rfl

end Kolosal

namespace Kolosal

theorem namesAligned_length {l o : List ModelPreset} (h : namesAligned l o = true) :
    l.length = o.length := by
  induction l generalizing o with
  | nil =>
    cases o with
    | nil => rfl
    | cons r o' => simp [namesAligned] at h
  | cons q l' ih =>
    cases o with
    | nil => simp [namesAligned] at h
    | cons r o' =>
      simp only [namesAligned, Bool.and_eq_true, decide_eq_true_eq] at h
      simp [ih h.2]

/-- Claim C5: for a store (with index-aligned collections and a current
index no less than the -1 sentinel) holding a preset of the given name at
first index `i`, `deletePreset` removes exactly that entry from both
collections, deletes its backing file, renumbers the remaining ids to
`1..N`, and — when the removed entry was the current index or beyond —
clamps the current index to the new last valid index, or -1 when the
store became empty. -/
theorem deletePreset_spec (st : PresetManager) (presetName : Str) (i : Nat)
    (hAl : namesAligned st.loadedPresets st.originalPresets = true)
    (hCur : -1 ≤ st.currentPresetIndex)
    (hFind : findIndexByName presetName st.loadedPresets = some i) :
    deletePresetClaim st presetName i := by
  obtain ⟨hlt, hname⟩ := findIndexByName_some hFind
  have hlen := namesAligned_length hAl
  have herase : (st.loadedPresets.eraseIdx i).length = st.loadedPresets.length - 1 :=
    List.length_eraseIdx_of_lt hlt
  have heraseO : (st.originalPresets.eraseIdx i).length = st.originalPresets.length - 1 :=
    List.length_eraseIdx_of_lt (by omega)
  unfold deletePresetClaim
  simp only [deletePreset, hFind]
  refine ⟨trivial, trivial, trivial, hname, ?_, trivial, ?_, ?_, ?_⟩
  · rw [← namesAligned_getD hAl i hlt]
    exact hname
  · simp only [renumberIds, renumberFrom_length]
    omega
  · intro j hj
    simp only [renumberIds, renumberFrom_length] at hj
    constructor
    · rw [renumberIds, renumberFrom_getD _ 1 j hj]
      omega
    · rw [renumberIds, renumberFrom_getD _ 1 j (by omega)]
      omega
  · intro hci
    simp only [List.isEmpty_iff_length_eq_zero]
    split
    · rename_i h1
      split
      · rename_i h2
        split
        · rfl
        · rename_i h3
          omega
      · rename_i h2
        split
        · rename_i h3
          omega
        · rename_i h3
          omega
    · rename_i h1
      split
      · rename_i h3
        omega
      · rename_i h3
        omega

/-- Claim C5 (witness): deleting "B" from the clean three-preset store
whose current index is the last entry. -/
theorem deletePreset_spec_witness : deletePresetClaim storeABC ['B'] 1 :=
  deletePreset_spec storeABC ['B'] 1 (by decide) (by decide) (by decide)

end Kolosal

namespace Kolosal

/-- Claim C7 (counterexample): on the store whose loaded entry for "foo"
carries an unsaved edit, a successful `savePreset(fooEdit, createNewFile=true)`
at a save time below the dirty entry's `lastModified` destroys that
in-memory entry: the trailing `switchPreset(size-1)` sees unsaved changes
at the stale current index and resets the loaded entry to its original
snapshot, so the pre-existing preset's in-memory entries are not left
untouched as the claim states. -/
theorem savePreset_newFile_claim_ce :
    (savePreset storeFooDirty fooEdit true 5).2 = true ∧
    fooEdit ∈ storeFooDirty.loadedPresets ∧
    fooEdit ∉ (savePreset storeFooDirty fooEdit true 5).1.loadedPresets := by
  decide

/-- Claim C7 (amended): on a store with no unsaved edits
(`loadedPresets = originalPresets`), `savePreset(P, createNewFile=true)`
when the file of `P.name` already exists persists the preset under
`P.name` suffixed with `_k` for the smallest k whose file name is free,
stamps it with the save time, appends it to both collections, and leaves
the pre-existing preset — its file and its in-memory entries — untouched;
without that restriction the dirty-discard in the trailing `switchPreset`
call can overwrite the current loaded entry with its original snapshot. -/
theorem savePreset_newFile_spec (st : PresetManager) (preset : ModelPreset) (now : Int)
    (hValid : isValidPresetName preset.name = true)
    (hColl : getPresetFilePath preset.name ∈ st.files.map Prod.fst)
    (hClean : st.loadedPresets = st.originalPresets) :
    savedAsNewClaim st preset now := by
  obtain ⟨k, hk1, hk2, hk3, hk4⟩ :=
    uniquePresetName_spec (st.files.map Prod.fst) preset.name hColl
  have hvalid' : ¬ isValidPresetName preset.name = false := by
    rw [hValid]
    simp
  have heq : savePreset st preset true now =
      (switchPreset
        { st with
            files := setFile st.files (getPresetFilePath (suffixedName preset.name k))
                { preset with lastModified := now, name := suffixedName preset.name k },
            loadedPresets := sortByLM (st.loadedPresets ++
                [{ preset with lastModified := now, name := suffixedName preset.name k }]),
            originalPresets := sortByLM (st.originalPresets ++
                [{ preset with lastModified := now, name := suffixedName preset.name k }]) }
        (((sortByLM (st.loadedPresets ++
            [{ preset with lastModified := now, name := suffixedName preset.name k }])).length : Int)
          - 1),
       true) := by
    simp only [savePreset, if_neg hvalid', hk4, if_true]
  have hmidclean : hasUnsavedChanges
      { st with
          files := setFile st.files (getPresetFilePath (suffixedName preset.name k))
              { preset with lastModified := now, name := suffixedName preset.name k },
          loadedPresets := sortByLM (st.loadedPresets ++
              [{ preset with lastModified := now, name := suffixedName preset.name k }]),
          originalPresets := sortByLM (st.originalPresets ++
              [{ preset with lastModified := now, name := suffixedName preset.name k }]) }
      = false := by
    apply hasUnsaved_false_of_eq
    simp only []
    rw [hClean]
  have hloaded : (savePreset st preset true now).1.loadedPresets
      = sortByLM (st.loadedPresets ++
          [{ preset with lastModified := now, name := suffixedName preset.name k }]) := by
    rw [heq]
    exact (switchPreset_clean _ _ hmidclean).1
  have horig : (savePreset st preset true now).1.originalPresets
      = sortByLM (st.originalPresets ++
          [{ preset with lastModified := now, name := suffixedName preset.name k }]) := by
    rw [heq]
    exact (switchPreset_clean _ _ hmidclean).2
  have hfiles : (savePreset st preset true now).1.files
      = setFile st.files (getPresetFilePath (suffixedName preset.name k))
          { preset with lastModified := now, name := suffixedName preset.name k } := by
    rw [heq, switchPreset_files]
  have hne : getPresetFilePath preset.name
      ≠ getPresetFilePath (suffixedName preset.name k) := by
    intro h
    exact suffixedName_ne_base preset.name k (getPresetFilePath_inj h).symm
  refine ⟨k, hk1, hk2, hk3, ?_, ?_, ?_, ?_, ?_, ?_, ?_⟩
  · rw [heq]
  · rw [hfiles]
    exact lookupFile_setFile_self _ _ _
  · rw [hfiles]
    exact lookupFile_setFile_ne _ _ hne
  · rw [hloaded]
    simp [mem_sortByLM]
  · rw [horig]
    simp [mem_sortByLM]
  · intro q hq
    rw [hloaded]
    simp [mem_sortByLM, hq]
  · intro q hq
    rw [horig]
    simp [mem_sortByLM, hq]

/-- Claim C7 (witness): saving "foo" as a new file on the clean
single-preset store holding "foo" produces "foo_1" and leaves "foo"
untouched. -/
theorem savePreset_newFile_spec_witness : savedAsNewClaim storeFoo presetFoo 99 :=
  savePreset_newFile_spec storeFoo presetFoo 99 (by decide) (by decide) rfl

end Kolosal
